/-
Verification of the car-seat test-agent pipeline (Parse → Generate → Evaluate)
and of the frontend API client and user store, against the repository's
specification.  Text is modelled as `List Char`; numeric scores as `ℚ`.
-/
import Mathlib

namespace SeatAgent

/-! ## Text primitives -/

/-- Boolean test that `k` matches the front of `s` character by character. -/
def leadMatch : List Char → List Char → Bool
  | [], _ => true
  | _ :: _, [] => false
  | a :: as, b :: bs => a == b && leadMatch as bs

/-- Boolean test that keyword `k` occurs contiguously somewhere inside `s`. -/
def occursIn (k : List Char) : List Char → Bool
  | [] => leadMatch k []
  | b :: bs => leadMatch k (b :: bs) || occursIn k bs

/-! ## Taxonomy -/

/-- Modelled from the spec: the six recognized seat-function categories
(the backend taxonomy store is not in the source tree). -/
inductive Category where
  | electricAdjustment
  | memory
  | heating
  | ventilation
  | massage
  | safety
deriving DecidableEq, Repr, Fintype

/-- Modelled from the spec: the fixed taxonomy order used for tie-breaking
(electric adjustment > memory > heating > ventilation > massage > safety). -/
def categoryOrder : List Category :=
  [.electricAdjustment, .memory, .heating, .ventilation, .massage, .safety]

/-- Modelled from the spec: a taxonomy assigns a keyword lexicon to each
category; the concrete backend lexicons are not in the source tree, so the
development is parametric in them. -/
def Taxonomy : Type := Category → List (List Char)

/-- Modelled from the spec: score of a sentence against one lexicon, the
number of lexicon keywords that occur in the sentence. -/
def matchCount (lex : List (List Char)) (s : List Char) : Nat :=
  (lex.filter (fun k => occursIn k s)).length

/-! ## Sentence segmentation -/

/-- Modelled from the spec: sentence delimiters `。！？；` and newline. -/
def sentenceDelims : List Char := ['。', '！', '？', '；', '\n']

/-- Characters treated as whitespace when deciding that a fragment is blank. -/
def isBlankChar (c : Char) : Bool :=
  c == ' ' || c == '\t' || c == '\r' || c == '　'

/-- Splits a character list at the sentence delimiters, keeping fragments. -/
def splitAux : List Char → List Char → List (List Char)
  | [], acc => [acc.reverse]
  | c :: cs, acc =>
    if c ∈ sentenceDelims then acc.reverse :: splitAux cs []
    else splitAux cs (c :: acc)

/-- Modelled from the spec: a leading enumeration marker (digits, dots,
dashes, surrounding blanks) is stripped from a fragment. -/
def stripEnumMarker (s : List Char) : List Char :=
  s.dropWhile (fun c => isBlankChar c || c.isDigit || c == '.' || c == '-' || c == '、')

/-- Modelled from the spec: segmentation of requirement text into sentences —
split on `。！？；` and newlines, strip enumeration markers, drop
empty/whitespace-only fragments. -/
def segment (text : List Char) : List (List Char) :=
  ((splitAux text []).map stripEnumMarker).filter
    (fun s => s.any (fun c => !isBlankChar c))

/-! ## Category assignment -/

/-- Picks the pair with the maximal score from a scored list; an earlier
element wins ties (a later element replaces only on a strictly larger
score). -/
def pickBest : List (Category × Nat) → Option (Category × Nat)
  | [] => none
  | x :: rest =>
    match pickBest rest with
    | none => some x
    | some y => if y.2 > x.2 then some y else some x

/-- Modelled from the spec: assign a sentence to the category whose lexicon
has the highest match count, ties broken by the fixed taxonomy order; zero
matches in every lexicon yields no category. -/
def classify (tax : Taxonomy) (s : List Char) : Option Category :=
  match pickBest (categoryOrder.map (fun c => (c, matchCount (tax c) s))) with
  | none => none
  | some (c, n) => if n = 0 then none else some c

/-! ## Features -/

/-- Priority levels of features and test cases. -/
inductive Priority where
  | high
  | medium
  | low
deriving DecidableEq, Repr

/-- Numeric range parameter attached to a feature. -/
structure Param where
  lo : Int
  hi : Int
  unit : List Char
deriving DecidableEq, Repr

/-- Feature descriptor produced by the extractor. -/
structure Feature where
  name : List Char
  category : Category
  parameters : List (List Char × Param)
  constraints : List (List Char × List Char)
  dependencies : List (List Char)
  priority : Priority
deriving DecidableEq, Repr

/-- Reads a leading run of decimal digits as a number, returning the rest. -/
def readNat (s : List Char) : Option (Nat × List Char) :=
  let ds := s.takeWhile Char.isDigit
  if ds.isEmpty then none
  else some (ds.foldl (fun n c => 10 * n + (c.toNat - '0'.toNat)) 0, s.dropWhile Char.isDigit)

/-- Modelled from the spec: the recognized units for numeric ranges
(mm, 度/degree, s/秒, %). -/
def unitTokens : List (List Char) := [['m', 'm'], ['度'], ['s'], ['秒'], ['%']]

/-- Tries to read one of the recognized unit tokens at the front of `s`. -/
def readUnit (s : List Char) : Option (List Char × List Char) :=
  match unitTokens.find? (fun u => leadMatch u s) with
  | some u => some (u, s.drop u.length)
  | none => none

/-- Modelled from the spec: tries to read a numeric range `N–M unit` or
`N到M unit` at the front of `s`. -/
def readRange (s : List Char) : Option ((List Char × Param) × List Char) := do
  let (n, s1) ← readNat s
  let s2 ← match s1 with
    | c :: cs => if c = '-' || c = '–' || c = '~' || c = '到' then some cs else none
    | [] => none
  let (m, s3) ← readNat s2
  let (u, s4) ← readUnit s3
  pure ((u, ⟨Int.ofNat n, Int.ofNat m, u⟩), s4)

/-- Fuel-bounded scan of a sentence for all numeric-range parameters. -/
def scanParamsAux : Nat → List Char → List (List Char × Param)
  | 0, _ => []
  | _ + 1, [] => []
  | fuel + 1, c :: cs =>
    match readRange (c :: cs) with
    | some (p, rest) => p :: scanParamsAux fuel rest
    | none => scanParamsAux fuel cs

/-- Modelled from the spec: extraction of numeric-range parameters from a
sentence. -/
def scanParams (s : List Char) : List (List Char × Param) :=
  scanParamsAux s.length s

/-- Modelled from the spec: explicit constraint phrases recognized in a
sentence. -/
def constraintKeys : List (List Char) :=
  [['不', '超', '过'], ['至', '少'], ['不', '低', '于'], ['不', '得']]

/-- Modelled from the spec: constraint entries of a sentence, keyed by the
matched phrase, with the sentence as description. -/
def scanConstraints (s : List Char) : List (List Char × List Char) :=
  (constraintKeys.filter (fun k => occursIn k s)).map (fun k => (k, s))

/-- Modelled from the spec: urgency keywords forcing high priority. -/
def urgencyKeys : List (List Char) := [['必', '须'], ['关', '键']]

/-- Modelled from the spec: hedging keywords forcing low priority. -/
def hedgeKeys : List (List Char) := [['可', '选'], ['建', '议']]

/-- Modelled from the spec: priority assignment — high for safety or urgency
keywords, low for hedged language, otherwise medium. -/
def assignPriority (cat : Category) (s : List Char) : Priority :=
  if cat = .safety ∨ urgencyKeys.any (fun k => occursIn k s) then .high
  else if hedgeKeys.any (fun k => occursIn k s) then .low
  else .medium

/-- Builds the feature for a categorized sentence, recording dependencies on
names of features already extracted from the same text. -/
def mkFeature (s : List Char) (cat : Category) (priorNames : List (List Char)) : Feature :=
  { name := s
    category := cat
    parameters := scanParams s
    constraints := scanConstraints s
    dependencies := priorNames.filter (fun n => occursIn n s)
    priority := assignPriority cat s }

/-- Merges a feature into an accumulator: a feature sharing `(name,
category)` with an existing entry is merged into it by unioning parameters
and constraints, otherwise the feature is appended. -/
def mergeInsert (acc : List Feature) (f : Feature) : List Feature :=
  if acc.any (fun g => g.name = f.name ∧ g.category = f.category) then
    acc.map (fun g =>
      if g.name = f.name ∧ g.category = f.category then
        { g with
          parameters := g.parameters ++ f.parameters.filter (fun p => p ∉ g.parameters)
          constraints := g.constraints ++ f.constraints.filter (fun p => p ∉ g.constraints)
          dependencies := g.dependencies ++ f.dependencies.filter (fun d => d ∉ g.dependencies) }
      else g)
  else acc ++ [f]

/-- Classifies each sentence in turn, accumulating features. -/
def extractLoop (tax : Taxonomy) : List (List Char) → List Feature → List Feature
  | [], acc => acc
  | s :: ss, acc =>
    match classify tax s with
    | none => extractLoop tax ss acc
    | some cat => extractLoop tax ss (acc ++ [mkFeature s cat (acc.map (fun f => f.name))])

/-- Modelled from the spec: the Feature Extractor contract
`extract(text) -> Feature[]` (the backend parser is not in the source
tree) — segment, classify each sentence, build features, merge duplicates. -/
def extract (tax : Taxonomy) (text : List Char) : List Feature :=
  (extractLoop tax (segment text) []).foldl mergeInsert []

/-! ## Test case synthesis -/

/-- Test types recognized by the synthesizer. -/
inductive TestType where
  | function
  | boundary
  | exception
  | performance
  | security
deriving DecidableEq, Repr

/-- Modelled from the spec: the fixed test-type output sequence
{function, boundary, exception, performance, security}. -/
def testTypeOrder : List TestType :=
  [.function, .boundary, .exception, .performance, .security]

/-- Generation options: the requested test types. -/
structure GenOptions where
  test_types : List TestType
deriving DecidableEq, Repr

/-- Modelled from the spec: the applicability gate of §4.2 — boundary needs
a numeric parameter, security needs category memory/safety or explicit
inclusion in the options, the remaining types are always applicable. -/
def applicable (f : Feature) (t : TestType) (opts : GenOptions) : Bool :=
  match t with
  | .function => true
  | .exception => true
  | .performance => true
  | .boundary => !f.parameters.isEmpty
  | .security =>
    decide (f.category = .memory ∨ f.category = .safety ∨ .security ∈ opts.test_types)

/-- Lowers a priority by one level. -/
def downgrade : Priority → Priority
  | .high => .medium
  | .medium => .low
  | .low => .low

/-- Modelled from the spec: priority derivation — inherit for
function/security, downgrade for boundary/performance, and exception is
never low (a low feature priority is raised to medium). -/
def derivePriority (p : Priority) : TestType → Priority
  | .function => p
  | .security => p
  | .boundary => downgrade p
  | .performance => downgrade p
  | .exception => if p = .low then .medium else p

/-- Chinese label of a test type, used in rendered titles and steps. -/
def typeLabel : TestType → List Char
  | .function => ['功', '能']
  | .boundary => ['边', '界']
  | .exception => ['异', '常']
  | .performance => ['性', '能']
  | .security => ['安', '全']

/-- Synthesized test case value object. -/
structure TestCase where
  feature_ref : List Char
  title : List Char
  test_type : TestType
  preconditions : List Char
  test_steps : List Char
  expected_result : List Char
  priority : Priority
  generated_by : List Char
deriving DecidableEq, Repr

/-- Decimal digit to character. -/
def digitChar : Nat → Char
  | 0 => '0' | 1 => '1' | 2 => '2' | 3 => '3' | 4 => '4'
  | 5 => '5' | 6 => '6' | 7 => '7' | 8 => '8' | 9 => '9'
  | _ => '*'

/-- Decimal numeral of a natural number as a character list. -/
def natStr (n : Nat) : List Char := ((Nat.digits 10 n).map digitChar).reverse

/-- Title candidate number `k` for a base title: the base itself for `k = 0`,
and the base with the integer suffix `k` appended otherwise. -/
def cand (base : List Char) (k : Nat) : List Char :=
  if k = 0 then base else base ++ '_' :: natStr k

/-- Modelled from the spec: title collision resolution — the first candidate
(the base title, then the base with incrementing integer suffixes) that does
not collide with an already-used title. -/
def fresh (used : List (List Char)) (base : List Char) : List Char :=
  match (List.range (used.length + 2)).find? (fun k => decide (cand base k ∉ used)) with
  | some k => cand base k
  | none => base

/-- Modelled from the spec: rendering of the (category, test_type) template
slots for one feature (the backend template texts are not in the source
tree); the rendered title is the feature name plus the test-type label. -/
def renderTitle (f : Feature) (t : TestType) : List Char :=
  f.name ++ '-' :: typeLabel t ++ ['测', '试']

/-- Builds the test case for an applicable (feature, test_type) pair, with
an already-uniquified title. -/
def mkTestCase (f : Feature) (t : TestType) (title : List Char) : TestCase :=
  { feature_ref := f.name
    title := title
    test_type := t
    preconditions := f.name ++ ['已', '启', '用']
    test_steps := ['执', '行'] ++ f.name ++ typeLabel t ++ ['操', '作']
    expected_result := f.name ++ ['符', '合', '预', '期']
    priority := derivePriority f.priority t
    generated_by := ['a', 'i'] }

/-- Generates the test cases of one feature in the fixed test-type order,
threading the accumulated batch and the used-title list. -/
def genTypes (f : Feature) (opts : GenOptions) :
    List TestType → List TestCase → List (List Char) → List TestCase × List (List Char)
  | [], tcs, used => (tcs, used)
  | t :: ts, tcs, used =>
    if t ∈ opts.test_types ∧ applicable f t opts = true then
      let title := fresh used (renderTitle f t)
      genTypes f opts ts (tcs ++ [mkTestCase f t title]) (title :: used)
    else
      genTypes f opts ts tcs used

/-- Generates test cases for all features in supplied order. -/
def genAll (opts : GenOptions) :
    List Feature → List TestCase → List (List Char) → List TestCase × List (List Char)
  | [], tcs, used => (tcs, used)
  | f :: fs, tcs, used =>
    let r := genTypes f opts testTypeOrder tcs used
    genAll opts fs r.1 r.2

/-- Modelled from the spec: the Test Case Synthesizer contract
`generate(features, options) -> TestCase[]` (the backend generator is not in
the source tree) — for each applicable (feature, test_type) pair render the
template, derive the priority, and uniquify the title by suffixing. -/
def generate (fs : List Feature) (opts : GenOptions) : List TestCase :=
  (genAll opts fs [] []).1

/-! ## Sample taxonomy for concrete evaluations -/

/-- Sample keyword lexicons in the shape the spec describes, used to
evaluate the extractor on concrete inputs. -/
def sampleTax : Taxonomy := fun c =>
  match c with
  | .electricAdjustment => [['电', '动'], ['调', '节']]
  | .memory => [['记', '忆']]
  | .heating => [['加', '热']]
  | .ventilation => [['通', '风']]
  | .massage => [['按', '摩']]
  | .safety => [['安', '全'], ['气', '囊']]

/-! ## Quality scoring -/

/-- Clamp a score to the interval [0, 100]. -/
def clamp100 (x : ℚ) : ℚ := max 0 (min 100 x)

/-- Round to one decimal place. -/
def round1 (x : ℚ) : ℚ := (round (10 * x) : ℤ) / 10

/-- Modelled from the spec: the domain glossary assigns the expected
technical terms to each category (the backend glossary store is not in the
source tree); the development is parametric in it. -/
def Glossary : Type := Category → List (List Char)

/-- Proportional score of `hits` out of `total` reference items, with a
neutral midpoint when there is nothing to compare against. -/
def ratioScore (hits total : Nat) : ℚ :=
  if total = 0 then 60 else 100 * (hits : ℚ) / (total : ℚ)

/-- Modelled from the spec: completeness — presence thresholds for
preconditions (contributing less when absent), test steps and expected
result; a missing test_steps or expected_result caps the dimension below
50. -/
def completenessScore (tc : TestCase) : ℚ :=
  let raw : ℚ := (if tc.preconditions ≠ [] then 20 else 10)
    + (if tc.test_steps ≠ [] then 40 else 0)
    + (if tc.expected_result ≠ [] then 40 else 0)
  clamp100 (if tc.test_steps = [] ∨ tc.expected_result = [] then min raw 45 else raw)

/-- Modelled from the spec: accuracy — proportion of the category's glossary
terms found in the test steps and expected result, neutral without a source
feature. -/
def accuracyScore (g : Glossary) (tc : TestCase) : Option Feature → ℚ
  | some f =>
    let terms := g f.category
    clamp100 (ratioScore
      ((terms.filter (fun k => occursIn k (tc.test_steps ++ tc.expected_result))).length)
      terms.length)
  | none => clamp100 60

/-- Modelled from the spec: the action-verb lexicon used by executability
(the backend lexicon is not in the source tree). -/
def actionVerbs : List (List Char) :=
  [['执', '行'], ['点', '击'], ['调', '节'], ['检', '查'], ['设', '置'], ['观', '察']]

/-- Modelled from the spec: executability — action-verb-led steps and a
measurable (quantified) expected result. -/
def executabilityScore (tc : TestCase) : ℚ :=
  clamp100 ((if actionVerbs.any (fun v => occursIn v tc.test_steps) then 60 else 30)
    + (if tc.expected_result.any Char.isDigit then 40 else 20))

/-- Modelled from the spec: coverage — fraction of the source feature's
parameter/constraint keys referenced in the steps or expected result, and a
neutral midpoint without a feature reference. -/
def coverageScore (tc : TestCase) : Option Feature → ℚ
  | some f =>
    let keys := f.parameters.map Prod.fst ++ f.constraints.map Prod.fst
    clamp100 (ratioScore
      ((keys.filter (fun k => occursIn k (tc.test_steps ++ tc.expected_result))).length)
      keys.length)
  | none => clamp100 60

/-- Modelled from the spec: clarity — structural markers and a sentence
length heuristic scored against thresholds. -/
def clarityScore (tc : TestCase) : ℚ :=
  clamp100 ((if tc.test_steps.any (fun c => c.isDigit || c ∈ sentenceDelims) then 50 else 30)
    + (if tc.test_steps.length ≤ 200 then 50 else 30))

/-- Modelled from the spec: the fixed dimension weights
{0.25, 0.25, 0.20, 0.20, 0.10}. -/
def weights : List ℚ := [25/100, 25/100, 20/100, 20/100, 10/100]

/-- Weighted sum of the five dimension scores with the fixed weights. -/
def weightedTotal (scores : List ℚ) : ℚ :=
  ((weights.zip scores).map (fun p => p.1 * p.2)).sum

/-- Evaluation value object produced by the scorer. -/
structure Evaluation where
  completeness_score : ℚ
  accuracy_score : ℚ
  executability_score : ℚ
  coverage_score : ℚ
  clarity_score : ℚ
  total_score : ℚ
  suggestions : List (List Char)
  evaluator_type : List Char
deriving DecidableEq, Repr

/-- Modelled from the spec: the templated improvement suggestion for each
dimension. -/
def suggestionText : Nat → List Char
  | 0 => ['建', '议', '补', '充', '前', '置', '条', '件']
  | 1 => ['建', '议', '使', '用', '专', '业', '术', '语']
  | 2 => ['建', '议', '细', '化', '操', '作', '步', '骤']
  | 3 => ['建', '议', '覆', '盖', '参', '数', '范', '围']
  | _ => ['建', '议', '改', '进', '表', '述', '清', '晰', '度']

/-- Modelled from the spec: one templated suggestion per dimension scoring
below 70, in the fixed dimension order. -/
def mkSuggestions (scores : List ℚ) : List (List Char) :=
  (scores.enum.filter (fun p => p.2 < 70)).map (fun p => suggestionText p.1)

/-- Modelled from the spec: the Quality Scorer contract
`evaluate(testCase, feature?) -> Evaluation` (the backend evaluator is not
in the source tree) — five independently clamped dimensions, the fixed
weighted total rounded to one decimal and clamped, and deterministic
templated suggestions. -/
def evaluate (g : Glossary) (tc : TestCase) (f : Option Feature) : Evaluation :=
  let c := completenessScore tc
  let a := accuracyScore g tc f
  let e := executabilityScore tc
  let v := coverageScore tc f
  let l := clarityScore tc
  { completeness_score := c
    accuracy_score := a
    executability_score := e
    coverage_score := v
    clarity_score := l
    total_score := clamp100 (round1 (weightedTotal [c, a, e, v, l]))
    suggestions := mkSuggestions [c, a, e, v, l]
    evaluator_type := ['a', 'i'] }

/-- Sample feature for concrete evaluations. -/
def sampleFeature : Feature :=
  { name := ['座', '椅', '加', '热']
    category := .heating
    parameters := []
    constraints := []
    dependencies := []
    priority := .medium }

/-- Sample glossary in the shape the spec describes, for concrete
evaluations. -/
def sampleGloss : Glossary := fun c =>
  match c with
  | .heating => [['加', '热'], ['温', '度']]
  | _ => [['座', '椅']]

/-- Sample test case for concrete evaluations. -/
def sampleTestCase : TestCase :=
  mkTestCase sampleFeature .function (renderTitle sampleFeature .function)

/-! ## Generation orchestrator -/

/-- Requirement value object handed to the orchestrator. -/
structure Requirement where
  id : Nat
  title : List Char
  content : List Char
deriving Repr

/-- Generation request: requirement, generation type and options. -/
structure GenRequest where
  requirement : Requirement
  generation_type : String
  options : GenOptions
deriving Repr

/-- Abstract repository state owned by the caller; the pipeline never
manages its own storage. -/
structure Repo where
  features : List (Nat × Feature)
  test_cases : List TestCase
deriving Repr

/-- Repository operation persisting features under a requirement id. -/
def create_features (rid : Nat) (fs : List Feature) (st : Repo) : Repo :=
  { st with features := st.features ++ fs.map (fun f => (rid, f)) }

/-- Repository operation persisting test cases. -/
def create_test_cases (tcs : List TestCase) (st : Repo) : Repo :=
  { st with test_cases := st.test_cases ++ tcs }

/-- Response of the test-case generation branch: exactly the fields
`message` and `test_cases_count`. -/
structure GenTCResponse where
  message : String
  test_cases_count : Nat
deriving DecidableEq, Repr

/-- Success message of the test-case generation branch. -/
def genMessage : String := "测试用例生成成功"

/-- Modelled from the spec: the orchestrator's `test_cases` branch (the
backend generation service is not in the source tree) — extract features
from the requirement content, persist them, synthesize test cases, persist
them, and answer with `message` and `test_cases_count`; other generation
types are outside this model. -/
def handleGeneration (tax : Taxonomy) (req : GenRequest) (st : Repo) :
    Option (GenTCResponse × Repo) :=
  if req.generation_type = "test_cases" then
    let fs := extract tax req.requirement.content
    let st1 := create_features req.requirement.id fs st
    let tcs := generate fs req.options
    let st2 := create_test_cases tcs st1
    some ({ message := genMessage, test_cases_count := tcs.length }, st2)
  else none

/-- Sample generation request for concrete evaluations. -/
def sampleRequest : GenRequest :=
  { requirement := { id := 7, title := ['需', '求'], content := ['座', '椅', '加', '热', '。'] }
    generation_type := "test_cases"
    options := { test_types := [.function, .exception] } }

/-- Empty repository. -/
def emptyRepo : Repo := { features := [], test_cases := [] }

/-! ## Frontend API client (src/frontend/src/api/index.ts) -/

/-- Error payload of a failed HTTP response (`error.response` with its
`status` and optional `data.detail`). -/
structure ErrResponse where
  status : Nat
  detail : Option String
deriving DecidableEq, Repr

/-- Axios error object: an optional response and a message. -/
structure AxiosError where
  response : Option ErrResponse
  message : String
deriving DecidableEq, Repr

/-- Browser-visible client state: the stored token, the location and the
error messages shown so far. -/
structure ClientState where
  token : Option String
  href : String
  messages : List String
deriving DecidableEq, Repr

/-- Successful axios response carrying a body in `data`. -/
structure AxiosResponse (α : Type) where
  status : Nat
  data : α
deriving Repr

/-- HTTP status of an error, when a response is present. -/
def statusOf (e : AxiosError) : Option Nat := e.response.map (fun r => r.status)

/-- Detail string of an error's response data, or the empty string. -/
def detailOf (e : AxiosError) : String :=
  match e.response with
  | some r => r.detail.getD ""
  | none => ""

/-- Message selection of the response interceptor: the response detail if
truthy, else the error message if truthy, else the fixed fallback text,
with JavaScript falsiness of the empty string. -/
def errMessage (e : AxiosError) : String :=
  if detailOf e ≠ "" then detailOf e
  else if e.message ≠ "" then e.message
  else "An error occurred"

/-- Success branch of the response interceptor: unwrap the body. -/
def onFulfilled {α : Type} (r : AxiosResponse α) : α := r.data

/-- Error branch of the response interceptor: on 401 remove the token and
redirect to /login; otherwise show the error message; in both cases the
error is re-thrown (returned). -/
def onRejected (e : AxiosError) (st : ClientState) : ClientState × AxiosError :=
  if statusOf e = some 401 then
    ({ st with token := none, href := "/login" }, e)
  else
    ({ st with messages := st.messages ++ [errMessage e] }, e)

/-- Sample 401 error. -/
def e401Ex : AxiosError :=
  { response := some { status := 401, detail := some "Unauthorized" }
    message := "Request failed" }

/-- Sample 500 error. -/
def e500Ex : AxiosError :=
  { response := some { status := 500, detail := some "Server error" }
    message := "Request failed" }

/-- Sample client state. -/
def stEx : ClientState := { token := some "tok", href := "/app", messages := [] }

/-! ## Frontend user store (src/frontend/src/stores/user.ts) -/

/-- Error thrown by an API call, with its message. -/
structure ApiErr where
  message : String
deriving DecidableEq, Repr

/-- Body of a successful authentication request. -/
structure AuthResponse where
  access_token : String
  token_type : String
deriving DecidableEq, Repr

/-- Authenticated user info. -/
structure UserInfo where
  id : Nat
  username : String
deriving DecidableEq, Repr

/-- State of the user store plus the localStorage token. -/
structure StoreState where
  user : Option UserInfo
  token : Option String
  storedToken : Option String
  loading : Bool
deriving DecidableEq, Repr

/-- Value returned by the store's `login`. -/
structure LoginResult where
  success : Bool
  error : Option String
deriving DecidableEq, Repr

/-- Login flow of the user store: set loading, call the auth API; on
success store the token and fetch the user info; any thrown error yields
`{success: false, error}`; the finally block clears loading in every
outcome. -/
def login (lr : Except ApiErr AuthResponse) (mr : Except ApiErr UserInfo)
    (st : StoreState) : StoreState × LoginResult :=
  let st1 := { st with loading := true }
  match lr with
  | .error e => ({ st1 with loading := false }, { success := false, error := some e.message })
  | .ok r =>
    let st2 := { st1 with token := some r.access_token, storedToken := some r.access_token }
    match mr with
    | .error e => ({ st2 with loading := false }, { success := false, error := some e.message })
    | .ok u => ({ st2 with user := some u, loading := false }, { success := true, error := none })

/-- Sample store state. -/
def storeEx : StoreState := { user := none, token := none, storedToken := none, loading := false }

/-! ## Lemmas on category assignment -/

theorem pickBest_eq_none {l : List (Category × Nat)} :
    pickBest l = none ↔ l = [] := by
  cases l with
  | nil => simp [pickBest]
  | cons x rest =>
    simp only [pickBest]
    cases hr : pickBest rest with
    | none => simp
    | some y => by_cases hgt : y.2 > x.2 <;> simp [hgt]

theorem pickBest_max {l : List (Category × Nat)} :
    ∀ y, pickBest l = some y → ∀ p ∈ l, p.2 ≤ y.2 := by
  induction l with
  | nil => intro y h; simp [pickBest] at h
  | cons x rest ih =>
    intro y h p hp
    simp only [pickBest] at h
    cases hr : pickBest rest with
    | none =>
      rw [hr] at h
      have hrest : rest = [] := pickBest_eq_none.mp hr
      subst hrest
      simp at hp h
      subst hp h
      exact le_refl _
    | some z =>
      rw [hr] at h
      by_cases hgt : z.2 > x.2 <;> simp [hgt] at h <;> subst h
      · rcases List.mem_cons.mp hp with h1 | h2
        · subst h1; omega
        · exact ih z hr p h2
      · rcases List.mem_cons.mp hp with h1 | h2
        · subst h1; exact le_refl _
        · have := ih z hr p h2; omega

theorem pickBest_split {l : List (Category × Nat)} :
    ∀ y, pickBest l = some y →
      ∃ l₁ l₂, l = l₁ ++ y :: l₂ ∧ ∀ p ∈ l₁, p.2 < y.2 := by
  induction l with
  | nil => intro y h; simp [pickBest] at h
  | cons x rest ih =>
    intro y h
    simp only [pickBest] at h
    cases hr : pickBest rest with
    | none =>
      rw [hr] at h
      simp at h
      exact ⟨[], rest, by simp [h], by simp⟩
    | some z =>
      rw [hr] at h
      by_cases hgt : z.2 > x.2 <;> simp [hgt] at h <;> subst h
      · obtain ⟨l₁, l₂, heq, hlt⟩ := ih z hr
        refine ⟨x :: l₁, l₂, by simp [heq], ?_⟩
        intro p hp
        rcases List.mem_cons.mp hp with h1 | h2
        · subst h1; omega
        · exact hlt p h2
      · exact ⟨[], rest, by simp, by simp⟩

theorem map_split {α β : Type} {f : α → β} {l : List α} {l₁ l₂ : List β} {b : β}
    (h : l.map f = l₁ ++ b :: l₂) :
    ∃ m₁ a m₂, l = m₁ ++ a :: m₂ ∧ m₁.map f = l₁ ∧ f a = b ∧ m₂.map f = l₂ := by
  induction l generalizing l₁ with
  | nil => cases l₁ <;> simp_all
  | cons x rest ih =>
    cases l₁ with
    | nil =>
      simp only [List.map_cons, List.nil_append] at h
      injection h with h1 h2
      exact ⟨[], x, rest, by simp, by simp, h1, h2⟩
    | cons y l₁' =>
      simp only [List.map_cons, List.cons_append] at h
      injection h with h1 h2
      obtain ⟨m₁, a, m₂, heq, hm1, hfa, hm2⟩ := ih h2
      exact ⟨x :: m₁, a, m₂, by simp [heq], by simp [hm1, h1], hfa, hm2⟩

theorem mem_categoryOrder (c : Category) : c ∈ categoryOrder := by
  cases c <;> simp [categoryOrder]

theorem classify_eq_none_iff (tax : Taxonomy) (s : List Char) :
    classify tax s = none ↔ ∀ c, matchCount (tax c) s = 0 := by
  unfold classify
  cases hp : pickBest (categoryOrder.map (fun c => (c, matchCount (tax c) s))) with
  | none =>
    have := pickBest_eq_none.mp hp
    simp [categoryOrder] at this
  | some y =>
    obtain ⟨c₀, n₀⟩ := y
    constructor
    · intro h c
      by_cases h0 : n₀ = 0
      · subst h0
        have hmax := pickBest_max (c₀, 0) hp (c, matchCount (tax c) s)
          (List.mem_map.mpr ⟨c, mem_categoryOrder c, rfl⟩)
        simpa using hmax
      · simp [h0] at h
    · intro hall
      obtain ⟨l₁, l₂, heq, _⟩ := pickBest_split (c₀, n₀) hp
      obtain ⟨m₁, a, m₂, _, _, hfa, _⟩ := map_split heq
      have hn : n₀ = matchCount (tax a) s := (congrArg Prod.snd hfa).symm
      simp [hn, hall a]

theorem classify_some (tax : Taxonomy) (s : List Char) (c : Category)
    (h : classify tax s = some c) :
    0 < matchCount (tax c) s ∧
    (∀ c', matchCount (tax c') s ≤ matchCount (tax c) s) ∧
    ∃ m₁ m₂, categoryOrder = m₁ ++ c :: m₂ ∧
      ∀ c' ∈ m₁, matchCount (tax c') s < matchCount (tax c) s := by
  unfold classify at h
  cases hp : pickBest (categoryOrder.map (fun c => (c, matchCount (tax c) s))) with
  | none => rw [hp] at h; simp at h
  | some y =>
    obtain ⟨c₀, n₀⟩ := y
    rw [hp] at h
    by_cases h0 : n₀ = 0
    · simp [h0] at h
    · have hcc : c₀ = c := by simpa [h0] using h
      subst hcc
      obtain ⟨l₁, l₂, heq, hlt⟩ := pickBest_split (c₀, n₀) hp
      obtain ⟨m₁, a, m₂, hcat, hm1, hfa, hm2⟩ := map_split heq
      have ha : a = c₀ := congrArg Prod.fst hfa
      have hn : matchCount (tax a) s = n₀ := congrArg Prod.snd hfa
      subst ha
      rw [← hn] at h0 hlt
      refine ⟨by omega, ?_, m₁, m₂, hcat, ?_⟩
      · intro c'
        have := pickBest_max (a, n₀) hp (c', matchCount (tax c') s)
          (List.mem_map.mpr ⟨c', mem_categoryOrder c', rfl⟩)
        simp at this
        omega
      · intro c' hc'
        have hmem : (c', matchCount (tax c') s) ∈ l₁ := by
          rw [← hm1]
          exact List.mem_map.mpr ⟨c', hc', rfl⟩
        exact hlt _ hmem

/-! ## Lemmas on extraction -/

theorem extractLoop_all_none {tax : Taxonomy} {ss : List (List Char)} {acc : List Feature}
    (h : ∀ s ∈ ss, classify tax s = none) : extractLoop tax ss acc = acc := by
  induction ss generalizing acc with
  | nil => rfl
  | cons s ss ih =>
    have hs : classify tax s = none := h s (by simp)
    simp only [extractLoop, hs]
    exact ih (fun s hs => h s (by simp [hs]))

theorem mergeInsert_pres (P : List Char → Category → Prop) {acc : List Feature} {f : Feature}
    (hacc : ∀ g ∈ acc, P g.name g.category) (hf : P f.name f.category) :
    ∀ g ∈ mergeInsert acc f, P g.name g.category := by
  intro g hg
  unfold mergeInsert at hg
  by_cases hex : acc.any (fun g => g.name = f.name ∧ g.category = f.category)
  · simp only [hex, if_pos] at hg
    obtain ⟨g₀, hg₀, hgeq⟩ := List.mem_map.mp hg
    by_cases hcond : g₀.name = f.name ∧ g₀.category = f.category
    · rw [if_pos hcond] at hgeq
      have := hacc g₀ hg₀
      rw [← hgeq]
      exact this
    · rw [if_neg hcond] at hgeq
      rw [← hgeq]
      exact hacc g₀ hg₀
  · simp only [hex, if_neg, if_false] at hg
    rcases List.mem_append.mp hg with h1 | h2
    · exact hacc g h1
    · simp at h2
      subst h2
      exact hf

theorem foldl_mergeInsert_pres (P : List Char → Category → Prop) {fs : List Feature}
    {acc : List Feature}
    (hfs : ∀ f ∈ fs, P f.name f.category) (hacc : ∀ g ∈ acc, P g.name g.category) :
    ∀ g ∈ fs.foldl mergeInsert acc, P g.name g.category := by
  induction fs generalizing acc with
  | nil => simpa using hacc
  | cons f fs ih =>
    simp only [List.foldl_cons]
    exact ih (fun f hf => hfs f (by simp [hf]))
      (mergeInsert_pres P hacc (hfs f (by simp)))

theorem extractLoop_pres (P : List Char → Category → Prop) {tax : Taxonomy}
    {ss : List (List Char)} {acc : List Feature}
    (hss : ∀ s ∈ ss, ∀ c, classify tax s = some c → P s c)
    (hacc : ∀ g ∈ acc, P g.name g.category) :
    ∀ g ∈ extractLoop tax ss acc, P g.name g.category := by
  induction ss generalizing acc with
  | nil => simpa [extractLoop] using hacc
  | cons s ss ih =>
    simp only [extractLoop]
    cases hc : classify tax s with
    | none => exact ih (fun s hs => hss s (by simp [hs])) hacc
    | some cat =>
      refine ih (fun s hs => hss s (by simp [hs])) ?_
      intro g hg
      rcases List.mem_append.mp hg with h1 | h2
      · exact hacc g h1
      · simp at h2
        subst h2
        exact hss s (by simp) cat hc

/-- C3: for every requirement text in which no sentence matches any keyword
of any of the six category lexicons (including empty and whitespace-only
text), `extract` returns the empty list as a normal (total-function)
result. -/
theorem extract_no_match_empty (tax : Taxonomy) (text : List Char)
    (h : ∀ s ∈ segment text, ∀ c, matchCount (tax c) s = 0) :
    extract tax text = [] := by
  unfold extract
  rw [extractLoop_all_none (fun s hs => (classify_eq_none_iff tax s).mpr (h s hs))]
  rfl

/-- Witness for C3 at a concrete input: a text whose sentences match no
keyword of the sample taxonomy (one of them whitespace-only) extracts to the
empty feature list. -/
theorem extract_no_match_empty_witness :
    (∀ s ∈ segment ('价' :: '格' :: '便' :: '宜' :: '。' :: ' ' :: []),
      ∀ c, matchCount (sampleTax c) s = 0) ∧
    extract sampleTax ('价' :: '格' :: '便' :: '宜' :: '。' :: ' ' :: []) = [] :=
  ⟨by decide, extract_no_match_empty sampleTax _ (by decide)⟩

/-- C4: a sentence is assigned to the category with the highest keyword-match
count; on ties the winner is the category occurring earliest in the fixed
taxonomy order; a sentence matching no lexicon at all is assigned no
category (and hence yields no Feature). -/
theorem classify_max_earliest (tax : Taxonomy) (s : List Char) :
    (classify tax s = none ↔ ∀ c, matchCount (tax c) s = 0) ∧
    (∀ c, classify tax s = some c →
      (∀ c', matchCount (tax c') s ≤ matchCount (tax c) s) ∧
      ∃ m₁ m₂, categoryOrder = m₁ ++ c :: m₂ ∧
        ∀ c' ∈ m₁, matchCount (tax c') s < matchCount (tax c) s) :=
  ⟨classify_eq_none_iff tax s,
   fun c h => ⟨(classify_some tax s c h).2.1, (classify_some tax s c h).2.2⟩⟩

/-- Witness for C4 at a concrete input: the sentence 座椅加热 is assigned
`heating`, the category with the strictly highest match count under the
sample taxonomy. -/
theorem classify_max_earliest_witness :
    classify sampleTax ('座' :: '椅' :: '加' :: '热' :: []) = some .heating ∧
    ∀ c', matchCount (sampleTax c') ('座' :: '椅' :: '加' :: '热' :: []) ≤
      matchCount (sampleTax .heating) ('座' :: '椅' :: '加' :: '热' :: []) :=
  ⟨by decide,
   ((classify_max_earliest sampleTax ('座' :: '椅' :: '加' :: '热' :: [])).2
     .heating (by decide)).1⟩

/-- C5: every Feature returned by `extract` carries one of the six
enumerated categories, and its sentence positively matched that category's
lexicon (a candidate with no matched category is discarded, never
produced). -/
theorem extract_category_enumerated (tax : Taxonomy) (text : List Char) :
    ∀ f ∈ extract tax text,
      f.category ∈ categoryOrder ∧ 0 < matchCount (tax f.category) f.name := by
  have base : ∀ g ∈ extractLoop tax (segment text) [],
      g.category ∈ categoryOrder ∧ 0 < matchCount (tax g.category) g.name := by
    refine extractLoop_pres
      (fun nm c => c ∈ categoryOrder ∧ 0 < matchCount (tax c) nm) ?_ (by simp)
    intro s _ c hc
    exact ⟨mem_categoryOrder c, (classify_some tax s c hc).1⟩
  intro f hf
  exact foldl_mergeInsert_pres
    (fun nm c => c ∈ categoryOrder ∧ 0 < matchCount (tax c) nm)
    base (by simp) f hf

/-- Witness for C5 at a concrete input: the feature extracted from 座椅加热。
carries the `heating` category, which is in the enumeration. -/
theorem extract_category_enumerated_witness :
    ∃ f ∈ extract sampleTax ('座' :: '椅' :: '加' :: '热' :: '。' :: []),
      f.category ∈ categoryOrder ∧
        0 < matchCount (sampleTax f.category) f.name := by
  refine ⟨⟨'座' :: '椅' :: '加' :: '热' :: [], .heating, [], [], [], .medium⟩, ?_, ?_⟩
  · decide
  · exact extract_category_enumerated sampleTax
      ('座' :: '椅' :: '加' :: '热' :: '。' :: []) _ (by decide)

/-! ## Lemmas on title uniqueness -/

theorem digitChar_inj : ∀ a < 10, ∀ b < 10, digitChar a = digitChar b → a = b := by
  decide

theorem map_digitChar_inj :
    ∀ {l1 l2 : List Nat}, (∀ d ∈ l1, d < 10) → (∀ d ∈ l2, d < 10) →
      l1.map digitChar = l2.map digitChar → l1 = l2 := by
  intro l1
  induction l1 with
  | nil => intro l2 _ _ h; cases l2 <;> simp_all
  | cons a l1 ih =>
    intro l2 h1 h2 h
    cases l2 with
    | nil => simp at h
    | cons b l2 =>
      simp only [List.map_cons] at h
      injection h with hd tl
      have hab : a = b :=
        digitChar_inj a (h1 a (by simp)) b (h2 b (by simp)) hd
      have := ih (fun d hd => h1 d (by simp [hd])) (fun d hd => h2 d (by simp [hd])) tl
      simp [hab, this]

theorem natStr_inj : Function.Injective natStr := by
  intro a b h
  unfold natStr at h
  have h' := List.reverse_injective h
  have hdig := map_digitChar_inj
    (fun d hd => Nat.digits_lt_base (by norm_num) hd)
    (fun d hd => Nat.digits_lt_base (by norm_num) hd) h'
  exact Nat.digits.injective 10 hdig

theorem cand_inj (base : List Char) : Function.Injective (cand base) := by
  intro k1 k2 h
  unfold cand at h
  by_cases h1 : k1 = 0 <;> by_cases h2 : k2 = 0
  · omega
  · rw [if_pos h1, if_neg h2] at h
    have := congrArg List.length h
    simp at this
  · rw [if_neg h1, if_pos h2] at h
    have := congrArg List.length h
    simp at this
  · rw [if_neg h1, if_neg h2] at h
    have h' := List.append_cancel_left h
    injection h' with _ htl
    exact natStr_inj htl

theorem exists_fresh_cand (used : List (List Char)) (base : List Char) :
    ∃ k < used.length + 2, cand base k ∉ used := by
  by_contra hcon
  push_neg at hcon
  have hnodup : ((List.range (used.length + 2)).map (cand base)).Nodup :=
    (List.nodup_range _).map (cand_inj base)
  have hsub : ∀ x ∈ (List.range (used.length + 2)).map (cand base), x ∈ used.toFinset := by
    intro x hx
    obtain ⟨k, hk, rfl⟩ := List.mem_map.mp hx
    exact List.mem_toFinset.mpr (hcon k (List.mem_range.mp hk))
  have hcard1 : ((List.range (used.length + 2)).map (cand base)).toFinset.card
      = used.length + 2 := by
    rw [List.toFinset_card_of_nodup hnodup]
    simp
  have hle : ((List.range (used.length + 2)).map (cand base)).toFinset ⊆ used.toFinset := by
    intro x hx
    exact hsub x (List.mem_toFinset.mp hx)
  have := Finset.card_le_card hle
  have := List.toFinset_card_le used
  omega

theorem fresh_not_mem (used : List (List Char)) (base : List Char) :
    fresh used base ∉ used := by
  unfold fresh
  cases hf : (List.range (used.length + 2)).find?
      (fun k => decide (cand base k ∉ used)) with
  | some k =>
    have := List.find?_some hf
    simpa using of_decide_eq_true this
  | none =>
    exfalso
    obtain ⟨k, hk, hnot⟩ := exists_fresh_cand used base
    have := List.find?_eq_none.mp hf k (List.mem_range.mpr hk)
    simp [hnot] at this

theorem genTypes_inv (f : Feature) (opts : GenOptions) :
    ∀ (ts : List TestType) (tcs : List TestCase) (used : List (List Char)),
      (tcs.map (fun tc => tc.title)).Nodup →
      (∀ tc ∈ tcs, tc.title ∈ used) →
      ((genTypes f opts ts tcs used).1.map (fun tc => tc.title)).Nodup ∧
      ∀ tc ∈ (genTypes f opts ts tcs used).1,
        tc.title ∈ (genTypes f opts ts tcs used).2 := by
  intro ts
  induction ts with
  | nil => intro tcs used h1 h2; exact ⟨h1, h2⟩
  | cons t ts ih =>
    intro tcs used h1 h2
    simp only [genTypes]
    by_cases hc : t ∈ opts.test_types ∧ applicable f t opts = true
    · rw [if_pos hc]
      apply ih
      · rw [List.map_append]
        rw [List.nodup_append]
        refine ⟨h1, by simp, ?_⟩
        intro x hx
        simp only [List.map_cons, List.map_nil, List.mem_singleton]
        intro hx2
        subst hx2
        obtain ⟨tc, htc, heq⟩ := List.mem_map.mp hx
        have : tc.title ∈ used := h2 tc htc
        rw [heq] at this
        exact fresh_not_mem used (renderTitle f t) this
      · intro tc htc
        rcases List.mem_append.mp htc with hl | hr
        · exact List.mem_cons_of_mem _ (h2 tc hl)
        · simp at hr
          subst hr
          simp [mkTestCase]
    · rw [if_neg hc]
      exact ih tcs used h1 h2

theorem genAll_inv (opts : GenOptions) :
    ∀ (fs : List Feature) (tcs : List TestCase) (used : List (List Char)),
      (tcs.map (fun tc => tc.title)).Nodup →
      (∀ tc ∈ tcs, tc.title ∈ used) →
      ((genAll opts fs tcs used).1.map (fun tc => tc.title)).Nodup ∧
      ∀ tc ∈ (genAll opts fs tcs used).1,
        tc.title ∈ (genAll opts fs tcs used).2 := by
  intro fs
  induction fs with
  | nil => intro tcs used h1 h2; exact ⟨h1, h2⟩
  | cons f fs ih =>
    intro tcs used h1 h2
    simp only [genAll]
    obtain ⟨h1', h2'⟩ := genTypes_inv f opts testTypeOrder tcs used h1 h2
    exact ih _ _ h1' h2'

/-- C6: within one `generate` call no two returned test cases share a title —
rendered titles that collide with one already produced in the batch receive
an incrementing integer suffix until unique. -/
theorem generate_titles_nodup (fs : List Feature) (opts : GenOptions) :
    ((generate fs opts).map (fun tc => tc.title)).Nodup := by
  unfold generate
  exact (genAll_inv opts fs [] [] (by simp) (by simp)).1

/-! ## Lemmas on quality scoring -/

theorem clamp100_nonneg (x : ℚ) : 0 ≤ clamp100 x := le_max_left 0 _

theorem clamp100_le (x : ℚ) : clamp100 x ≤ 100 :=
  max_le (by norm_num) (min_le_left _ _)

/-- C1: the total score of every evaluation is the fixed weighted sum
0.25·completeness + 0.25·accuracy + 0.20·executability + 0.20·coverage +
0.10·clarity of its own dimension scores, rounded to one decimal and
clamped to [0,100]; consequently it always lies in [0,100]. -/
theorem evaluate_total_formula (g : Glossary) (tc : TestCase) (f : Option Feature) :
    (evaluate g tc f).total_score =
      clamp100 (round1 (25/100 * (evaluate g tc f).completeness_score
        + 25/100 * (evaluate g tc f).accuracy_score
        + 20/100 * (evaluate g tc f).executability_score
        + 20/100 * (evaluate g tc f).coverage_score
        + 10/100 * (evaluate g tc f).clarity_score)) ∧
    0 ≤ (evaluate g tc f).total_score ∧ (evaluate g tc f).total_score ≤ 100 := by
  refine ⟨?_, clamp100_nonneg _, clamp100_le _⟩
  simp only [evaluate]
  congr 2
  simp [weightedTotal, weights]
  ring

/-- C2: the five dimension weights are fixed at {0.25, 0.25, 0.20, 0.20,
0.10}, their sum differs from 1 by strictly less than 0.001, and the total
score of every evaluation is exactly the weighted sum of its dimension
scores under these weights (rounded and clamped), never set independently. -/
theorem weights_sum_invariant :
    weights = [25/100, 25/100, 20/100, 20/100, 10/100] ∧
    |weights.sum - 1| < 1/1000 ∧
    ∀ (g : Glossary) (tc : TestCase) (f : Option Feature),
      (evaluate g tc f).total_score =
        clamp100 (round1 (weightedTotal
          [(evaluate g tc f).completeness_score,
           (evaluate g tc f).accuracy_score,
           (evaluate g tc f).executability_score,
           (evaluate g tc f).coverage_score,
           (evaluate g tc f).clarity_score])) := by
  refine ⟨rfl, by norm_num [weights], ?_⟩
  intro g tc f
  rfl

/-- C7: evaluation is deterministic and idempotent — two calls on equal
inputs produce identical Evaluation values, suggestion lists included. -/
theorem evaluate_deterministic (g : Glossary) (tc tc' : TestCase)
    (f f' : Option Feature) (htc : tc = tc') (hf : f = f') :
    evaluate g tc f = evaluate g tc' f' ∧
    (evaluate g tc f).suggestions = (evaluate g tc' f').suggestions := by
  subst htc
  subst hf
  exact ⟨rfl, rfl⟩

/-- Witness for C7 at a concrete input: re-evaluating the sample test case
yields the identical evaluation. -/
theorem evaluate_deterministic_witness :
    evaluate sampleGloss sampleTestCase (some sampleFeature) =
      evaluate sampleGloss sampleTestCase (some sampleFeature) :=
  (evaluate_deterministic sampleGloss sampleTestCase sampleTestCase
    (some sampleFeature) (some sampleFeature) rfl rfl).1

/-! ## Orchestrator theorems -/

/-- C8: on a request with generation_type `test_cases`, the orchestrator
extracts features from the requirement content, persists them, synthesizes
and persists the test cases, and its response consists exactly of `message`
and `test_cases_count`. -/
theorem orchestrator_test_cases (tax : Taxonomy) (req : GenRequest) (st : Repo)
    (h : req.generation_type = "test_cases") :
    handleGeneration tax req st =
      some ({ message := genMessage
              test_cases_count :=
                (generate (extract tax req.requirement.content) req.options).length },
            { features := st.features ++
                (extract tax req.requirement.content).map (fun f => (req.requirement.id, f))
              test_cases := st.test_cases ++
                generate (extract tax req.requirement.content) req.options }) := by
  unfold handleGeneration create_features create_test_cases
  rw [if_pos h]

/-- Witness for C8 at a concrete input: the sample request is handled, its
features and test cases are appended to the repository, and the response
carries the message and count. -/
theorem orchestrator_test_cases_witness :
    handleGeneration sampleTax sampleRequest emptyRepo =
      some ({ message := genMessage
              test_cases_count :=
                (generate (extract sampleTax sampleRequest.requirement.content)
                  sampleRequest.options).length },
            { features := emptyRepo.features ++
                (extract sampleTax sampleRequest.requirement.content).map
                  (fun f => (sampleRequest.requirement.id, f))
              test_cases := emptyRepo.test_cases ++
                generate (extract sampleTax sampleRequest.requirement.content)
                  sampleRequest.options }) :=
  orchestrator_test_cases sampleTax sampleRequest emptyRepo rfl

/-! ## Frontend theorems -/

/-- C9: the shared client unwraps every successful response to its body; an
error with status 401 removes the stored token and redirects to /login with
no error message shown; every other error shows one error message; in both
error branches the error itself is re-thrown. -/
theorem api_interceptor_behavior {α : Type} (r : AxiosResponse α)
    (e : AxiosError) (st : ClientState) :
    onFulfilled r = r.data ∧
    (onRejected e st).2 = e ∧
    (statusOf e = some 401 →
      (onRejected e st).1 = { token := none, href := "/login", messages := st.messages }) ∧
    (statusOf e ≠ some 401 →
      (onRejected e st).1 = { st with messages := st.messages ++ [errMessage e] }) := by
  refine ⟨rfl, ?_, ?_, ?_⟩ <;> unfold onRejected <;>
    by_cases h : statusOf e = some 401 <;> simp [h]

/-- Witness for C9 at concrete inputs: a 401 error clears the token and
redirects without a message, while a 500 error appends one shown message. -/
theorem api_interceptor_behavior_witness :
    (onRejected e401Ex stEx).1 = { token := none, href := "/login", messages := stEx.messages } ∧
    (onRejected e500Ex stEx).1 = { stEx with messages := stEx.messages ++ [errMessage e500Ex] } :=
  ⟨(api_interceptor_behavior (⟨200, (0 : Nat)⟩ : AxiosResponse Nat) e401Ex stEx).2.2.1 rfl,
   (api_interceptor_behavior (⟨200, (0 : Nat)⟩ : AxiosResponse Nat) e500Ex stEx).2.2.2
     (by decide)⟩

/-- C10: the user store's login succeeds exactly when both the
authentication call and the user-info call succeed; a failure of either
yields `{success: false, error}` carrying the thrown message; the loading
flag is false after every outcome. -/
theorem user_store_login (lr : Except ApiErr AuthResponse)
    (mr : Except ApiErr UserInfo) (st : StoreState) :
    ((login lr mr st).2.success = true ↔
      (∃ r, lr = .ok r) ∧ (∃ u, mr = .ok u)) ∧
    (login lr mr st).1.loading = false ∧
    (∀ e, lr = .error e →
      (login lr mr st).2 = { success := false, error := some e.message }) ∧
    (∀ r e, lr = .ok r → mr = .error e →
      (login lr mr st).2 = { success := false, error := some e.message }) := by
  cases lr <;> cases mr <;> simp [login]

/-- Witness for C10 at concrete inputs: a successful pair of calls yields
success with loading cleared, and a failed auth call yields the error
result. -/
theorem user_store_login_witness :
    ((login (.ok ⟨"tok", "bearer"⟩) (.ok ⟨1, "admin"⟩) storeEx).2.success = true) ∧
    (login (.error ⟨"bad credentials"⟩) (.ok ⟨1, "admin"⟩) storeEx).2 =
      { success := false, error := some "bad credentials" } ∧
    (login (.error ⟨"bad credentials"⟩) (.ok ⟨1, "admin"⟩) storeEx).1.loading = false :=
  ⟨(user_store_login (.ok ⟨"tok", "bearer"⟩) (.ok ⟨1, "admin"⟩) storeEx).1.mpr
      ⟨⟨_, rfl⟩, ⟨_, rfl⟩⟩,
   (user_store_login (.error ⟨"bad credentials"⟩) (.ok ⟨1, "admin"⟩) storeEx).2.2.1
      ⟨"bad credentials"⟩ rfl,
   (user_store_login (.error ⟨"bad credentials"⟩) (.ok ⟨1, "admin"⟩) storeEx).2.1⟩

end SeatAgent
